import Mathlib

/-
Verification of the date-window resolution and aggregation core of a
transaction-summary dashboard (src/sales.py).

The embedded functions mirror, line by line, the three core functions of the
source:

  * get_date_range        (sales.py lines 88-145)  : the period resolver
  * filter_data_by_date   (sales.py lines 147-164) : the row filter
  * load_and_process_data (sales.py lines 167-203) : the aggregation pipeline
    (minus the file decoding, which is I/O shell)

Modelling decisions, each noted again at the definition it concerns:

  * Instants are modelled at calendar-day granularity.  Every comparison the
    source performs happens after normalisation to midnight (`normalize()` /
    `replace(hour=0, ...)`), so the surviving information is the (year,
    month, day) triple.  Years are integers; the proleptic Gregorian rules of
    Python's datetime are used (datetime restricts years to 1..9999, which is
    reflected by validity hypotheses where a claim needs them).
  * Money amounts are exact rationals standing for the decimal values in the
    uploaded file; pandas float64 arithmetic is abstracted to exact
    arithmetic.  `Series.round(2)` is modelled by an exact rounding to two
    decimals (tie direction does not matter for any claim here).
  * A data-frame row is a record of the three columns the core reads.  A
    missing (NaN) cell of a column is `none`; the result of
    `pd.to_datetime(..., errors='coerce')` on the timestamp column is stored
    directly, `none` standing for NaT (absent or unparsable).
-/

namespace Sales

/-! ### Calendar model -/

structure Date where
  year : ℤ
  month : ℕ
  day : ℕ
deriving DecidableEq

/-- Gregorian leap-year rule, as implemented by Python's `calendar`/`datetime`. -/
def isLeapYear (y : ℤ) : Bool :=
  y % 4 == 0 && (y % 100 != 0 || y % 400 == 0)

/-- Number of days of month `m` of year `y` (months are 1-based). -/
def daysInMonth (y : ℤ) (m : ℕ) : ℕ :=
  if m = 2 then (if isLeapYear y then 29 else 28)
  else if m = 4 ∨ m = 6 ∨ m = 9 ∨ m = 11 then 30
  else 31

/-- A (year, month, day) triple that denotes a real calendar day representable
by Python's `datetime` (whose `MINYEAR` is 1). -/
def Date.Valid (d : Date) : Prop :=
  1 ≤ d.year ∧ 1 ≤ d.month ∧ d.month ≤ 12 ∧ 1 ≤ d.day ∧ d.day ≤ daysInMonth d.year d.month

instance (d : Date) : Decidable d.Valid :=
  inferInstanceAs (Decidable (_ ∧ _))

/-- Chronological order on calendar days.  `datetime`/`Timestamp` comparison
is chronological, which on day triples is exactly the lexicographic order. -/
def Date.le (a b : Date) : Prop :=
  a.year < b.year ∨
    (a.year = b.year ∧ (a.month < b.month ∨ (a.month = b.month ∧ a.day ≤ b.day)))

instance (a b : Date) : Decidable (a.le b) :=
  inferInstanceAs (Decidable (_ ∨ _))

/-- The calendar day before `d`; this is `d - timedelta(days=1)` at day
granularity. -/
def Date.pred (d : Date) : Date :=
  if 2 ≤ d.day then ⟨d.year, d.month, d.day - 1⟩
  else if 2 ≤ d.month then ⟨d.year, d.month - 1, daysInMonth d.year (d.month - 1)⟩
  else ⟨d.year - 1, 12, 31⟩

/-- `d - timedelta(days=n)` at day granularity. -/
def subDays (d : Date) (n : ℕ) : Date :=
  Date.pred^[n] d

/-! ### Period resolver (get_date_range, sales.py lines 88-145) -/

/-- The closed list of filter options offered by the dashboard.  The source
hits the final `else` both for the literal string "All Time" and for any
unrecognised option, so `allTime` is the catch-all constructor. -/
inductive Period where
  | allTime
  | today
  | yesterday
  | last7Days
  | last30Days
  | last90Days
  | last180Days
  | last365Days
  | thisMonth
  | previousMonth
  | thisYear
  | previousYear
deriving DecidableEq

/-- `get_date_range(filter_option, reference_date)`.  The source first zeroes
the time of day (`replace(hour=0, minute=0, second=0, microsecond=0)`), so at
day granularity `today` is the reference date itself.  Returns
`(None, None)` for "All Time". -/
def get_date_range (filter_option : Period) (reference_date : Date) :
    Option Date × Option Date :=
  match filter_option with
  | .today => (some reference_date, some reference_date)
  | .yesterday => (some reference_date.pred, some reference_date.pred)
  | .last7Days => (some (subDays reference_date 6), some reference_date)
  | .last30Days => (some (subDays reference_date 29), some reference_date)
  | .last90Days => (some (subDays reference_date 89), some reference_date)
  | .last180Days => (some (subDays reference_date 179), some reference_date)
  | .last365Days => (some (subDays reference_date 364), some reference_date)
  | .thisMonth => (some ⟨reference_date.year, reference_date.month, 1⟩, some reference_date)
  | .previousMonth =>
    let first_day_this_month : Date := ⟨reference_date.year, reference_date.month, 1⟩
    let last_day_prev_month := first_day_this_month.pred
    (some ⟨last_day_prev_month.year, last_day_prev_month.month, 1⟩, some last_day_prev_month)
  | .thisYear => (some ⟨reference_date.year, 1, 1⟩, some reference_date)
  | .previousYear =>
    (some ⟨reference_date.year - 1, 1, 1⟩, some ⟨reference_date.year - 1, 12, 31⟩)
  | .allTime => (none, none)

/-! ### Rows and the row filter (filter_data_by_date, sales.py lines 147-164) -/

/-- One data-frame row, restricted to the three columns the core reads.
`category` is the 'Transaction Category' cell (`none` = NaN), `amount` the
'Amount Paid' cell (`none` = NaN), and `createdOn` the result of parsing the
'Created On' cell with `pd.to_datetime(..., errors='coerce')` (`none` = NaT,
i.e. absent or unparsable). -/
structure Row where
  category : Option String
  amount : Option ℚ
  createdOn : Option Date
deriving DecidableEq

/-- `filter_data_by_date(df, start_date, end_date)`.  If either bound is
`None` the frame is returned unchanged.  Otherwise the timestamp column is
coerced (`errors='coerce'`), NaT rows are dropped, timestamps are normalised
to midnight, and the mask keeps `start <= day <= end`.  (The source compares
`date_only <= end.normalize() + 1 day - 1 second`; since `date_only` is
itself a midnight instant this is exactly the day-granularity inclusive
comparison `day <= end`.) -/
def filter_data_by_date (df : List Row) (start_date end_date : Option Date) :
    List Row :=
  match start_date, end_date with
  | some s, some e =>
    df.filter fun r =>
      match r.createdOn with
      | none => false
      | some d => decide (s.le d) && decide (d.le e)
  | _, _ => df

/-! ### Aggregation (load_and_process_data, sales.py lines 167-203) -/

/-- `Series.round(2)`: rounding to two decimal places, in exact rational
arithmetic.  (numpy rounds halves to even; no claim depends on the tie
direction, so rounding half up is used.) -/
def round2 (q : ℚ) : ℚ :=
  (⌊q * 100 + 1 / 2⌋ : ℚ) / 100

/-- Code-point lexicographic order on character lists, the order Python and
pandas use to compare strings when `groupby(sort=True)` sorts group keys. -/
def charListLt : List Char → List Char → Bool
  | [], [] => false
  | [], _ :: _ => true
  | _ :: _, [] => false
  | a :: as, b :: bs =>
    decide (a.val.toNat < b.val.toNat) ||
      (decide (a.val.toNat = b.val.toNat) && charListLt as bs)

def strLeB (a b : String) : Bool :=
  a == b || charListLt a.data b.data

/-- Insertion step of an insertion sort on strings (ascending). -/
def insertStr (c : String) : List String → List String
  | [] => [c]
  | b :: l => if strLeB c b then c :: b :: l else b :: insertStr c l

/-- Ascending sort of the group keys; `groupby` with the default `sort=True`
lists the groups in ascending key order. -/
def sortStrings (l : List String) : List String :=
  l.foldr insertStr []

/-- The distinct category labels of the frame, in the ascending order in
which `df.groupby('Transaction Category')` (default `sort=True`,
`dropna=True`) produces the groups.  Rows whose category cell is NaN belong
to no group. -/
def categoryKeys (df : List Row) : List String :=
  sortStrings (df.filterMap (fun r => r.category)).dedup

/-- One row of the aggregate table `transaction_summary`: a category, its
'# of transactions' and its 'Total Amount Paid'. -/
structure AggRow where
  category : String
  count : ℕ
  totalAmount : ℚ
deriving DecidableEq

/-- The rows of the frame belonging to the group of category `c`. -/
def groupRows (df : List Row) (c : String) : List Row :=
  df.filter fun r => r.category == some c

/-- The aggregate row of one group, before rounding: pandas
`('Amount Paid', 'count')` counts the non-NaN amount cells of the group, and
`('Amount Paid', 'sum')` sums the non-NaN amount cells. -/
def aggRowFor (df : List Row) (c : String) : AggRow :=
  let amounts := (groupRows df c).filterMap (fun r => r.amount)
  ⟨c, amounts.length, amounts.sum⟩

/-- Insertion step of a stable descending sort by 'Total Amount Paid'. -/
def insertDesc (a : AggRow) : List AggRow → List AggRow
  | [] => [a]
  | b :: l => if b.totalAmount < a.totalAmount then a :: b :: l else b :: insertDesc a l

/-- `sort_values('Total Amount Paid', ascending=False)`, modelled as a stable
descending sort applied to the table in group order.  (pandas reverses the
column, argsorts ascending and reverses again, which keeps equal totals in
table order whenever the underlying argsort leaves equal elements in place.) -/
def sortDescByTotal (l : List AggRow) : List AggRow :=
  l.foldl (fun acc a => insertDesc a acc) []

/-- The aggregate table (sales.py lines 192-198): group by category, count
and sum the amounts, round the totals to two decimals, then sort the table
by total descending. -/
def transaction_summary (df : List Row) : List AggRow :=
  let raw := (categoryKeys df).map (aggRowFor df)
  let rounded := raw.map fun a => AggRow.mk a.category a.count (round2 a.totalAmount)
  sortDescByTotal rounded

/-! ### Pipeline (load_and_process_data, sales.py lines 167-203) -/

/-- The tuple returned by `load_and_process_data` (without the shell-level
load-failure path, which returns all-None before any rows exist):
`(original_df, transaction_summary-or-None, grand_total_amount,
grand_total_count, start_date, end_date)`.  `summary = none` is the explicit
empty marker returned when the filtered frame is empty. -/
structure ResultBundle where
  originalRows : List Row
  summary : Option (List AggRow)
  grandTotal : ℚ
  grandCount : ℕ
  startDate : Option Date
  endDate : Option Date
deriving DecidableEq

/-- `load_and_process_data(file, filter_option, date_column)` after the file
has been decoded into `rows`.  `hasDateColumn` models the
`date_column in df.columns` test; `reference_date` is the "now" that
`get_date_range` defaults to.  Mirrors the source exactly: keep a copy of the
original frame; if the timestamp column exists, coerce it and drop NaT rows
(regardless of the period!); resolve the period; filter only when the window
is bounded and the column exists; return the empty marker if nothing is
left; otherwise aggregate and derive the grand totals by summing the table's
columns. -/
def load_and_process_data (rows : List Row) (filter_option : Period)
    (hasDateColumn : Bool) (reference_date : Date) : ResultBundle :=
  let original_df := rows
  let df1 := if hasDateColumn then rows.filter (fun r => r.createdOn.isSome) else rows
  let w := get_date_range filter_option reference_date
  let df2 := if w.1.isSome && hasDateColumn then filter_data_by_date df1 w.1 w.2 else df1
  if df2.isEmpty then ⟨original_df, none, 0, 0, w.1, w.2⟩
  else
    let ts := transaction_summary df2
    ⟨original_df, some ts, (ts.map (fun a => a.totalAmount)).sum,
      (ts.map (fun a => a.count)).sum, w.1, w.2⟩

/-! ### Day numbering

An independent measuring stick for claims about window lengths: each date is
assigned its rata-die style day number, `⟨1, 1, 1⟩` being day 1, and
consecutive calendar days are proved to carry consecutive numbers. -/

/-- 1 if `y` is a leap year, else 0. -/
def leapFix (y : ℤ) : ℕ :=
  if isLeapYear y then 1 else 0

/-- Cumulative number of days of year `y` strictly before month `m`. -/
def cumDaysBefore (y : ℤ) : ℕ → ℕ
  | 1 => 0
  | 2 => 31
  | 3 => 59 + leapFix y
  | 4 => 90 + leapFix y
  | 5 => 120 + leapFix y
  | 6 => 151 + leapFix y
  | 7 => 181 + leapFix y
  | 8 => 212 + leapFix y
  | 9 => 243 + leapFix y
  | 10 => 273 + leapFix y
  | 11 => 304 + leapFix y
  | 12 => 334 + leapFix y
  | _ => 0

/-- Number of leap years among the years `1 .. y-1`. -/
def leapsBefore (y : ℤ) : ℤ :=
  (y - 1) / 4 - (y - 1) / 100 + (y - 1) / 400

/-- Day number of a date (day 1 is January 1 of year 1). -/
def toDayNum (d : Date) : ℤ :=
  365 * (d.year - 1) + leapsBefore d.year + (cumDaysBefore d.year d.month : ℤ) + d.day

/-- Maps each `Last {N} Days` token to its `N`. -/
def lastDaysCount : Period → Option ℕ
  | .last7Days => some 7
  | .last30Days => some 30
  | .last90Days => some 90
  | .last180Days => some 180
  | .last365Days => some 365
  | _ => none

/-- The intermediate frame `df` of `load_and_process_data` after the NaT
drop and the window filter, named so the proofs can speak about it; it is
definitionally the frame the pipeline aggregates. -/
def filteredFrame (rows : List Row) (filter_option : Period) (hasDateColumn : Bool)
    (reference_date : Date) : List Row :=
  let df1 := if hasDateColumn then rows.filter (fun r => r.createdOn.isSome) else rows
  let w := get_date_range filter_option reference_date
  if w.1.isSome && hasDateColumn then filter_data_by_date df1 w.1 w.2 else df1

/-! ### Claim-side definitions and concrete frames -/

/-- Index of the first row of the group of category `c` in the frame. -/
def firstCategoryIdx (rows : List Row) (c : String) : ℕ :=
  rows.findIdx fun r => r.category == some c

/-- The ordering property claimed for the aggregate table: descending by
total, except that groups with equal totals must appear in the stable order
of first appearance of each group's first row in the input. -/
def sortedWithFirstAppearanceTies (rows : List Row) : Prop :=
  (transaction_summary rows).Pairwise fun a b =>
    b.totalAmount < a.totalAmount ∨
      (b.totalAmount = a.totalAmount ∧
        firstCategoryIdx rows a.category < firstCategoryIdx rows b.category)

/-- Two categories with equal totals; category "B" appears first. -/
def tieRows : List Row :=
  [⟨some "B", some 5, none⟩, ⟨some "A", some 5, none⟩]

/-- One row whose category is present but whose amount cell is NaN. -/
def nanAmountRows : List Row :=
  [⟨some "A", none, none⟩]

/-- One ordinary row. -/
def singleRows : List Row :=
  [⟨some "A", some 5, none⟩]

/-! ### Calendar lemmas -/

theorem Date.le_def (a b : Date) :
    a.le b ↔
      (a.year < b.year ∨
        (a.year = b.year ∧ (a.month < b.month ∨ (a.month = b.month ∧ a.day ≤ b.day)))) :=
  Iff.rfl

theorem Date.le_refl (d : Date) : d.le d := by
  simp [Date.le_def]

theorem Date.le_trans {a b c : Date} (h1 : a.le b) (h2 : b.le c) : a.le c := by
  simp only [Date.le_def] at h1 h2 ⊢
  omega

theorem one_le_daysInMonth (y : ℤ) (m : ℕ) : 1 ≤ daysInMonth y m := by
  unfold daysInMonth
  split
  · split <;> norm_num
  · split <;> norm_num

theorem Date.pred_le (d : Date) : d.pred.le d := by
  unfold Date.pred
  split
  · unfold Date.le; dsimp only; omega
  · split
    · unfold Date.le; dsimp only; omega
    · unfold Date.le; dsimp only; omega

theorem subDays_succ (d : Date) (n : ℕ) : subDays d (n + 1) = (subDays d n).pred := by
  unfold subDays
  exact Function.iterate_succ_apply' Date.pred n d

theorem subDays_le (d : Date) (n : ℕ) : (subDays d n).le d := by
  induction n with
  | zero => exact Date.le_refl d
  | succ n ih =>
    rw [subDays_succ]
    exact Date.le_trans (Date.pred_le _) ih

theorem firstOfMonth_le (x : Date) (h : 1 ≤ x.day) : Date.le ⟨x.year, x.month, 1⟩ x := by
  unfold Date.le
  dsimp only
  omega

/-- C3: for every period token and every reference instant the resolved
window satisfies `start <= end` whenever it is bounded, and the `AllTime`
token always resolves to the unbounded window `(None, None)`. -/
theorem resolver_start_le_end (p : Period) (ref : Date) (h : ref.Valid) :
    get_date_range .allTime ref = (none, none) ∧
    ∀ s e : Date, get_date_range p ref = (some s, some e) → s.le e := by
  obtain ⟨hy, hm1, hm12, hd1, hdm⟩ := h
  refine ⟨rfl, ?_⟩
  intro s e hse
  cases p <;> simp only [get_date_range, Prod.mk.injEq, Option.some.injEq] at hse
  case allTime => exact Option.noConfusion hse.1
  case today =>
    obtain ⟨rfl, rfl⟩ := hse; exact Date.le_refl _
  case yesterday =>
    obtain ⟨rfl, rfl⟩ := hse; exact Date.le_refl _
  case last7Days =>
    obtain ⟨rfl, rfl⟩ := hse; exact subDays_le _ _
  case last30Days =>
    obtain ⟨rfl, rfl⟩ := hse; exact subDays_le _ _
  case last90Days =>
    obtain ⟨rfl, rfl⟩ := hse; exact subDays_le _ _
  case last180Days =>
    obtain ⟨rfl, rfl⟩ := hse; exact subDays_le _ _
  case last365Days =>
    obtain ⟨rfl, rfl⟩ := hse; exact subDays_le _ _
  case thisMonth =>
    obtain ⟨rfl, rfl⟩ := hse
    unfold Date.le; dsimp only; omega
  case previousMonth =>
    obtain ⟨rfl, rfl⟩ := hse
    have hday : 1 ≤ (Date.pred ⟨ref.year, ref.month, 1⟩).day := by
      unfold Date.pred
      split
      · dsimp only at *; omega
      · split
        · dsimp only; exact one_le_daysInMonth _ _
        · dsimp only; norm_num
    exact firstOfMonth_le _ hday
  case thisYear =>
    obtain ⟨rfl, rfl⟩ := hse
    unfold Date.le; dsimp only; omega
  case previousYear =>
    obtain ⟨rfl, rfl⟩ := hse
    unfold Date.le; dsimp only; omega

theorem resolver_start_le_end_witness :
    get_date_range .allTime ⟨2024, 3, 15⟩ = (none, none) ∧
    ∀ s e : Date, get_date_range .thisMonth ⟨2024, 3, 15⟩ = (some s, some e) → s.le e :=
  resolver_start_le_end .thisMonth ⟨2024, 3, 15⟩ (by decide)

/-- C4: for every valid reference instant, `PreviousMonth` resolves to the
pair (first day of the previous month, last day of the previous month); for
a January reference the previous month is December of the prior year. -/
theorem previousMonth_eq (ref : Date) (h : ref.Valid) :
    get_date_range .previousMonth ref =
      if 2 ≤ ref.month then
        (some ⟨ref.year, ref.month - 1, 1⟩,
          some ⟨ref.year, ref.month - 1, daysInMonth ref.year (ref.month - 1)⟩)
      else (some ⟨ref.year - 1, 12, 1⟩, some ⟨ref.year - 1, 12, 31⟩) := by
  obtain ⟨hy, hm1, hm12, hd1, hdm⟩ := h
  simp only [get_date_range]
  unfold Date.pred
  dsimp only
  rw [if_neg (by norm_num : ¬ (2 ≤ (1:ℕ)))]
  by_cases hm : 2 ≤ ref.month
  · rw [if_pos hm, if_pos hm]
  · rw [if_neg hm, if_neg hm]

theorem previousMonth_eq_witness :
    get_date_range .previousMonth ⟨2024, 3, 15⟩ = (some ⟨2024, 2, 1⟩, some ⟨2024, 2, 29⟩) := by
  rw [previousMonth_eq ⟨2024, 3, 15⟩ (by decide)]
  decide

theorem isLeapYear_true_iff (y : ℤ) :
    isLeapYear y = true ↔ (y % 4 = 0 ∧ (y % 100 ≠ 0 ∨ y % 400 = 0)) := by
  simp [isLeapYear]

theorem leapsBefore_succ (y : ℤ) (_h : 2 ≤ y) :
    leapsBefore y = leapsBefore (y - 1) + leapFix (y - 1) := by
  have hiff := isLeapYear_true_iff (y - 1)
  unfold leapFix
  cases hb : isLeapYear (y - 1) with
  | false =>
    rw [hb] at hiff
    simp only [Bool.false_eq_true, false_iff, not_and_or, not_or, not_not] at hiff
    simp only [Bool.false_eq_true, if_false]
    unfold leapsBefore
    omega
  | true =>
    rw [hb] at hiff
    simp only [true_iff] at hiff
    simp only [if_true]
    unfold leapsBefore
    omega

theorem cumDaysBefore_succ (y : ℤ) (m : ℕ) (h2 : 2 ≤ m) (h12 : m ≤ 12) :
    cumDaysBefore y m = cumDaysBefore y (m - 1) + daysInMonth y (m - 1) := by
  interval_cases m <;>
    cases hb : isLeapYear y <;>
      simp [cumDaysBefore, daysInMonth, leapFix, hb]

theorem toDayNum_pred (d : Date) (hv : d.Valid) (h2 : 2 ≤ toDayNum d) :
    d.pred.Valid ∧ toDayNum d.pred = toDayNum d - 1 := by
  obtain ⟨hy, hm1, hm12, hd1, hdm⟩ := hv
  unfold Date.pred
  split
  case isTrue hday =>
    constructor
    · unfold Date.Valid
      dsimp only
      exact ⟨hy, hm1, hm12, by omega, by omega⟩
    · unfold toDayNum
      dsimp only
      omega
  case isFalse hday =>
    split
    case isTrue hmon =>
      constructor
      · unfold Date.Valid
        dsimp only
        exact ⟨hy, by omega, by omega, one_le_daysInMonth _ _, Nat.le_refl _⟩
      · have hc := cumDaysBefore_succ d.year d.month hmon hm12
        unfold toDayNum
        dsimp only
        omega
    case isFalse hmon =>
      have hm : d.month = 1 := by omega
      have hd : d.day = 1 := by omega
      have hy2 : 2 ≤ d.year := by
        unfold toDayNum at h2
        rw [hm, hd] at h2
        simp only [cumDaysBefore] at h2
        unfold leapsBefore at h2
        omega
      have hl := leapsBefore_succ d.year hy2
      constructor
      · unfold Date.Valid
        dsimp only
        refine ⟨by omega, by omega, by omega, by omega, ?_⟩
        norm_num [daysInMonth]
      · unfold toDayNum
        dsimp only
        rw [hm, hd, hl]
        simp only [cumDaysBefore]
        omega

theorem toDayNum_subDays (d : Date) (k : ℕ) (hv : d.Valid)
    (h : (k : ℤ) + 1 ≤ toDayNum d) :
    (subDays d k).Valid ∧ toDayNum (subDays d k) = toDayNum d - k := by
  induction k with
  | zero => exact ⟨hv, by simp [subDays]⟩
  | succ n ih =>
    have hn : (n : ℤ) + 1 ≤ toDayNum d := by push_cast at h ⊢; omega
    obtain ⟨hv2, he2⟩ := ih hn
    have hge : 2 ≤ toDayNum (subDays d n) := by
      rw [he2]; push_cast at h; omega
    obtain ⟨hv3, he3⟩ := toDayNum_pred _ hv2 hge
    rw [subDays_succ]
    refine ⟨hv3, ?_⟩
    rw [he3, he2]
    push_cast
    ring

theorem leapsBefore_nonneg (y : ℤ) (h : 1 ≤ y) : 0 ≤ leapsBefore y := by
  unfold leapsBefore
  omega

theorem toDayNum_ge (d : Date) (hv : d.Valid) (h2 : 2 ≤ d.year) : 366 ≤ toDayNum d := by
  obtain ⟨hy, hm1, hm12, hd1, hdm⟩ := hv
  have hl := leapsBefore_nonneg d.year (by omega)
  have hc : 0 ≤ (cumDaysBefore d.year d.month : ℤ) := Int.ofNat_nonneg _
  unfold toDayNum
  omega

theorem lastNDays_core (ref : Date) (k : ℕ) (hv : ref.Valid) (hy : 2 ≤ ref.year)
    (hk : k ≤ 364) :
    (subDays ref k).Valid ∧ toDayNum ref - toDayNum (subDays ref k) + 1 = k + 1 := by
  have h366 := toDayNum_ge ref hv hy
  have hs := toDayNum_subDays ref k hv (by omega)
  exact ⟨hs.1, by rw [hs.2]; omega⟩

/-- C6: each `Last {N} Days` token (N in 7, 30, 90, 180, 365) resolves to
`(midnight(reference) - (N-1) days, midnight(reference))`, a window that
spans exactly N calendar days including the reference day. -/
theorem lastNDays_window (p : Period) (n : ℕ) (ref : Date)
    (hp : lastDaysCount p = some n) (hv : ref.Valid) (hy : 2 ≤ ref.year) :
    get_date_range p ref = (some (subDays ref (n - 1)), some ref) ∧
    (subDays ref (n - 1)).Valid ∧
    toDayNum ref - toDayNum (subDays ref (n - 1)) + 1 = n := by
  cases p <;> simp only [lastDaysCount, Option.some.injEq, reduceCtorEq] at hp
  case last7Days =>
    subst hp
    have h := lastNDays_core ref 6 hv hy (by norm_num)
    show get_date_range .last7Days ref = (some (subDays ref 6), some ref) ∧
      (subDays ref 6).Valid ∧ toDayNum ref - toDayNum (subDays ref 6) + 1 = 7
    exact ⟨rfl, h.1, by have h2 := h.2; omega⟩
  case last30Days =>
    subst hp
    have h := lastNDays_core ref 29 hv hy (by norm_num)
    show get_date_range .last30Days ref = (some (subDays ref 29), some ref) ∧
      (subDays ref 29).Valid ∧ toDayNum ref - toDayNum (subDays ref 29) + 1 = 30
    exact ⟨rfl, h.1, by have h2 := h.2; omega⟩
  case last90Days =>
    subst hp
    have h := lastNDays_core ref 89 hv hy (by norm_num)
    show get_date_range .last90Days ref = (some (subDays ref 89), some ref) ∧
      (subDays ref 89).Valid ∧ toDayNum ref - toDayNum (subDays ref 89) + 1 = 90
    exact ⟨rfl, h.1, by have h2 := h.2; omega⟩
  case last180Days =>
    subst hp
    have h := lastNDays_core ref 179 hv hy (by norm_num)
    show get_date_range .last180Days ref = (some (subDays ref 179), some ref) ∧
      (subDays ref 179).Valid ∧ toDayNum ref - toDayNum (subDays ref 179) + 1 = 180
    exact ⟨rfl, h.1, by have h2 := h.2; omega⟩
  case last365Days =>
    subst hp
    have h := lastNDays_core ref 364 hv hy (by norm_num)
    show get_date_range .last365Days ref = (some (subDays ref 364), some ref) ∧
      (subDays ref 364).Valid ∧ toDayNum ref - toDayNum (subDays ref 364) + 1 = 365
    exact ⟨rfl, h.1, by have h2 := h.2; omega⟩

theorem lastNDays_window_witness :
    get_date_range .last7Days ⟨2024, 3, 15⟩ =
      (some (subDays ⟨2024, 3, 15⟩ 6), some ⟨2024, 3, 15⟩) ∧
    (subDays ⟨2024, 3, 15⟩ 6).Valid ∧
    toDayNum ⟨2024, 3, 15⟩ - toDayNum (subDays ⟨2024, 3, 15⟩ 6) + 1 = 7 :=
  lastNDays_window .last7Days 7 ⟨2024, 3, 15⟩ rfl (by decide) (by decide)

/-! ### Sorting lemmas -/

theorem mem_insertDesc (a x : AggRow) (l : List AggRow) :
    x ∈ insertDesc a l ↔ x = a ∨ x ∈ l := by
  induction l with
  | nil => simp [insertDesc]
  | cons b t ih =>
    unfold insertDesc
    split
    · simp [List.mem_cons]
    · simp [List.mem_cons, ih]
      tauto

theorem insertDesc_perm (a : AggRow) (l : List AggRow) :
    List.Perm (insertDesc a l) (a :: l) := by
  induction l with
  | nil => exact List.Perm.refl _
  | cons b t ih =>
    unfold insertDesc
    split
    · exact List.Perm.refl _
    · exact List.Perm.trans (List.Perm.cons b ih) (List.Perm.swap a b t)

theorem foldl_insertDesc_perm (l acc : List AggRow) :
    List.Perm (l.foldl (fun acc a => insertDesc a acc) acc) (l ++ acc) := by
  induction l generalizing acc with
  | nil => simp
  | cons a t ih =>
    simp only [List.foldl_cons, List.cons_append]
    exact List.Perm.trans
      (List.Perm.trans (ih _) (List.Perm.append_left t (insertDesc_perm a acc)))
      List.perm_middle

theorem sortDescByTotal_perm (l : List AggRow) : List.Perm (sortDescByTotal l) l := by
  unfold sortDescByTotal
  have h := foldl_insertDesc_perm l []
  simpa using h

theorem mem_sortDescByTotal (x : AggRow) (l : List AggRow) :
    x ∈ sortDescByTotal l ↔ x ∈ l :=
  (sortDescByTotal_perm l).mem_iff

theorem insertDesc_sorted (a : AggRow) (l : List AggRow)
    (h : l.Pairwise fun x y => y.totalAmount ≤ x.totalAmount) :
    (insertDesc a l).Pairwise fun x y => y.totalAmount ≤ x.totalAmount := by
  induction l with
  | nil => simp [insertDesc]
  | cons b t ih =>
    rw [List.pairwise_cons] at h
    obtain ⟨hb, ht⟩ := h
    unfold insertDesc
    split
    case isTrue hlt =>
      rw [List.pairwise_cons]
      constructor
      · intro x hx
        rcases List.mem_cons.mp hx with rfl | hx
        · exact le_of_lt hlt
        · exact le_trans (hb x hx) (le_of_lt hlt)
      · exact List.pairwise_cons.mpr ⟨hb, ht⟩
    case isFalse hge =>
      rw [List.pairwise_cons]
      constructor
      · intro x hx
        rcases (mem_insertDesc a x t).mp hx with rfl | hx
        · exact not_lt.mp hge
        · exact hb x hx
      · exact ih ht

theorem foldl_insertDesc_sorted (l acc : List AggRow)
    (h : acc.Pairwise fun x y => y.totalAmount ≤ x.totalAmount) :
    (l.foldl (fun acc a => insertDesc a acc) acc).Pairwise
      fun x y => y.totalAmount ≤ x.totalAmount := by
  induction l generalizing acc with
  | nil => exact h
  | cons a t ih => exact ih _ (insertDesc_sorted a acc h)

/-! ### C1: ordering of the aggregate table -/

/-- C1 (amended): for every input frame the aggregate table is sorted in
non-increasing order of 'Total Amount Paid'. -/
theorem transaction_summary_sorted_desc (rows : List Row) :
    (transaction_summary rows).Pairwise fun a b => b.totalAmount ≤ a.totalAmount := by
  unfold transaction_summary
  dsimp only
  exact foldl_insertDesc_sorted _ [] List.Pairwise.nil

theorem tieRows_summary :
    transaction_summary tieRows = [⟨"A", 1, 5⟩, ⟨"B", 1, 5⟩] := by
  have hkeys : categoryKeys tieRows = ["A", "B"] := by decide
  have hA : aggRowFor tieRows "A" = ⟨"A", 1, ([(5 : ℚ)]).sum⟩ := rfl
  have hB : aggRowFor tieRows "B" = ⟨"B", 1, ([(5 : ℚ)]).sum⟩ := rfl
  have hsum : ([(5 : ℚ)]).sum = 5 := by norm_num
  have hr : round2 (5 : ℚ) = 5 := by norm_num [round2]
  unfold transaction_summary
  rw [hkeys]
  norm_num [hA, hB, hsum, hr, sortDescByTotal, insertDesc]

/-- C1 (counterexample): on `tieRows` the two groups have equal totals, the
"B" group's first row appears first in the input, yet the table lists the
"A" group first — `groupby` has already reordered the groups by key. -/
theorem tie_order_counterexample : ¬ sortedWithFirstAppearanceTies tieRows := by
  intro h
  unfold sortedWithFirstAppearanceTies at h
  rw [tieRows_summary] at h
  have h1 := (List.pairwise_cons.mp h).1 ⟨"B", 1, 5⟩ (List.mem_singleton.mpr rfl)
  rcases h1 with hlt | ⟨heq, hidx⟩
  · simp at hlt
  · exact absurd hidx (by decide)

/-! ### C2: per-group count and total -/

/-- C2 (amended): each aggregate row's count is the number of rows of its
group whose amount cell is present (pandas `count` skips NaN), and its total
is the sum of the present amounts of the group, rounded to two decimals
after the summation. -/
theorem summary_count_total_eq (rows : List Row) (a : AggRow)
    (ha : a ∈ transaction_summary rows) :
    a.count =
      ((rows.filter fun r => r.category == some a.category).filterMap
        (fun r => r.amount)).length ∧
    a.totalAmount =
      round2 (((rows.filter fun r => r.category == some a.category).filterMap
        (fun r => r.amount)).sum) := by
  unfold transaction_summary at ha
  dsimp only at ha
  rw [mem_sortDescByTotal] at ha
  simp only [List.mem_map] at ha
  obtain ⟨b, hb, rfl⟩ := ha
  obtain ⟨c, hc, rfl⟩ := hb
  constructor
  · dsimp [aggRowFor, groupRows]
  · dsimp [aggRowFor, groupRows]

theorem singleRows_summary :
    transaction_summary singleRows = [⟨"A", 1, 5⟩] := by
  have hkeys : categoryKeys singleRows = ["A"] := by decide
  have hA : aggRowFor singleRows "A" = ⟨"A", 1, ([(5 : ℚ)]).sum⟩ := rfl
  have hsum : ([(5 : ℚ)]).sum = 5 := by norm_num
  have hr : round2 (5 : ℚ) = 5 := by norm_num [round2]
  unfold transaction_summary
  rw [hkeys]
  norm_num [hA, hsum, hr, sortDescByTotal, insertDesc]

theorem summary_count_total_eq_witness :
    (1 : ℕ) =
      ((singleRows.filter fun r => r.category == some "A").filterMap
        (fun r => r.amount)).length ∧
    (5 : ℚ) =
      round2 (((singleRows.filter fun r => r.category == some "A").filterMap
        (fun r => r.amount)).sum) :=
  summary_count_total_eq singleRows ⟨"A", 1, 5⟩
    (by rw [singleRows_summary]; exact List.mem_singleton.mpr rfl)

theorem nanAmountRows_summary :
    transaction_summary nanAmountRows = [⟨"A", 0, 0⟩] := by
  have hkeys : categoryKeys nanAmountRows = ["A"] := by decide
  have hA : aggRowFor nanAmountRows "A" = ⟨"A", 0, ([] : List ℚ).sum⟩ := rfl
  have hr : round2 (0 : ℚ) = 0 := by norm_num [round2]
  unfold transaction_summary
  rw [hkeys]
  norm_num [hA, hr, sortDescByTotal, insertDesc]

/-- C2 (counterexample): on `nanAmountRows` the single group "A" has one row
but its aggregate count is 0, because pandas `('Amount Paid', 'count')`
counts non-NaN amount cells, not rows. -/
theorem count_counterexample :
    ¬ ∀ a ∈ transaction_summary nanAmountRows,
        a.count = (nanAmountRows.filter fun r => r.category == some a.category).length := by
  intro h
  have h1 := h ⟨"A", 0, 0⟩
    (by rw [nanAmountRows_summary]; exact List.mem_singleton.mpr rfl)
  exact absurd h1 (by decide)

/-! ### C5: the row filter -/

/-- C5: the unbounded window leaves the frame unchanged, and for a bounded
window the filtered frame holds exactly the rows of the input whose
timestamp parses to a day inside the inclusive window; rows with absent or
unparsable timestamps are dropped (no error is possible: the filter is a
total function). -/
theorem filter_mem_iff (rows : List Row) (s e : Date) :
    filter_data_by_date rows none none = rows ∧
    ∀ r : Row, r ∈ filter_data_by_date rows (some s) (some e) ↔
      (r ∈ rows ∧ ∃ d : Date, r.createdOn = some d ∧ s.le d ∧ d.le e) := by
  constructor
  · rfl
  · intro r
    unfold filter_data_by_date
    rw [List.mem_filter]
    constructor
    · rintro ⟨hr, hcond⟩
      refine ⟨hr, ?_⟩
      cases hc : r.createdOn with
      | none => rw [hc] at hcond; simp at hcond
      | some d =>
        rw [hc] at hcond
        simp only [Bool.and_eq_true, decide_eq_true_eq] at hcond
        exact ⟨d, rfl, hcond.1, hcond.2⟩
    · rintro ⟨hr, d, hd, h1, h2⟩
      refine ⟨hr, ?_⟩
      rw [hd]
      simp only [Bool.and_eq_true, decide_eq_true_eq]
      exact ⟨h1, h2⟩

/-! ### C8: idempotence of the row filter -/

/-- C8: filtering an already-filtered frame by the same window returns it
unchanged. -/
theorem filter_idempotent (rows : List Row) (s e : Option Date) :
    filter_data_by_date (filter_data_by_date rows s e) s e =
      filter_data_by_date rows s e := by
  cases s with
  | none => rfl
  | some sv =>
    cases e with
    | none => rfl
    | some ev =>
      simp [filter_data_by_date, List.filter_filter]

/-! ### Pipeline normal form -/

theorem filter_data_by_date_nil (s e : Option Date) :
    filter_data_by_date [] s e = [] := by
  cases s <;> cases e <;> rfl

theorem load_eq (rows : List Row) (p : Period) (hc : Bool) (ref : Date) :
    load_and_process_data rows p hc ref =
      if (filteredFrame rows p hc ref).isEmpty then
        ⟨rows, none, 0, 0, (get_date_range p ref).1, (get_date_range p ref).2⟩
      else
        ⟨rows,
          some (transaction_summary (filteredFrame rows p hc ref)),
          ((transaction_summary (filteredFrame rows p hc ref)).map
            (fun a => a.totalAmount)).sum,
          ((transaction_summary (filteredFrame rows p hc ref)).map
            (fun a => a.count)).sum,
          (get_date_range p ref).1, (get_date_range p ref).2⟩ := rfl

theorem filteredFrame_nil (p : Period) (hc : Bool) (ref : Date) :
    filteredFrame [] p hc ref = [] := by
  unfold filteredFrame
  dsimp only
  simp [filter_data_by_date_nil]

/-! ### C7: grand totals reconcile -/

/-- C7: the grand totals of the bundle are the column sums of its aggregate
table (an absent table counting as zero), and the empty frame yields the
explicit empty marker with zero totals. -/
theorem grand_totals_reconcile (rows : List Row) (p : Period) (hc : Bool) (ref : Date) :
    (load_and_process_data rows p hc ref).grandTotal =
      (((load_and_process_data rows p hc ref).summary.getD []).map
        (fun a => a.totalAmount)).sum ∧
    (load_and_process_data rows p hc ref).grandCount =
      (((load_and_process_data rows p hc ref).summary.getD []).map
        (fun a => a.count)).sum ∧
    (rows = [] →
      (load_and_process_data rows p hc ref).summary = none ∧
      (load_and_process_data rows p hc ref).grandTotal = 0 ∧
      (load_and_process_data rows p hc ref).grandCount = 0) := by
  simp only [load_eq]
  generalize hE : filteredFrame rows p hc ref = E
  by_cases h : E.isEmpty = true
  · simp [h]
  · refine ⟨by simp [h], by simp [h], fun hrows => absurd ?_ h⟩
    rw [← hE, hrows, filteredFrame_nil]
    rfl

theorem grand_totals_reconcile_witness :
    (load_and_process_data [] .allTime true ⟨2024, 1, 1⟩).summary = none ∧
    (load_and_process_data [] .allTime true ⟨2024, 1, 1⟩).grandTotal = 0 ∧
    (load_and_process_data [] .allTime true ⟨2024, 1, 1⟩).grandCount = 0 :=
  (grand_totals_reconcile [] .allTime true ⟨2024, 1, 1⟩).2.2 rfl

/-! ### C9: NaT rows are dropped even for All Time -/

theorem frame_allTime (rows : List Row) (ref : Date) :
    filteredFrame rows .allTime true ref =
      rows.filter fun r => r.createdOn.isSome := rfl

/-- C9: with the timestamp column present in the schema and the AllTime
period, rows whose timestamp is absent or unparsable are dropped before
aggregation even though the resolved window is unbounded and the row filter
is the identity on the unbounded window; the original frame stays in the
bundle untouched. -/
theorem allTime_drops_unparsable (rows : List Row) (ref : Date) :
    (load_and_process_data rows .allTime true ref).originalRows = rows ∧
    (load_and_process_data rows .allTime true ref).startDate = none ∧
    (load_and_process_data rows .allTime true ref).endDate = none ∧
    (∀ df : List Row, filter_data_by_date df none none = df) ∧
    (load_and_process_data rows .allTime true ref).summary =
      (if (rows.filter fun r => r.createdOn.isSome).isEmpty then none
       else some (transaction_summary (rows.filter fun r => r.createdOn.isSome))) := by
  simp only [load_eq, frame_allTime]
  refine ⟨?_, ?_, ?_, fun df => rfl, ?_⟩ <;>
    · by_cases h : (rows.filter fun r => r.createdOn.isSome).isEmpty = true <;>
        simp [h, get_date_range]

/-! ### C10: NaN-category rows are excluded from aggregation -/

theorem filter_swap (p q : Row → Bool) (l : List Row) :
    (l.filter p).filter q = (l.filter q).filter p := by
  induction l with
  | nil => rfl
  | cons r t ih =>
    by_cases hp : p r <;> by_cases hq : q r <;>
      simp [List.filter_cons, hp, hq, ih]

theorem filterMap_category_restrict (rows : List Row) :
    ((rows.filter fun r => r.category.isSome).filterMap fun r => r.category) =
      rows.filterMap fun r => r.category := by
  induction rows with
  | nil => rfl
  | cons r t ih =>
    cases hc : r.category with
    | none => simp [List.filter_cons, List.filterMap_cons, hc, ih]
    | some c => simp [List.filter_cons, List.filterMap_cons, hc, ih]

theorem groupRows_restrict (rows : List Row) (c : String) :
    groupRows (rows.filter fun r => r.category.isSome) c = groupRows rows c := by
  unfold groupRows
  rw [filter_swap]
  apply List.filter_eq_self.mpr
  intro r hr
  have hmem := (List.mem_filter.mp hr).2
  cases hcat : r.category with
  | none => rw [hcat] at hmem; simp at hmem
  | some x => simp [hcat]

theorem categoryKeys_restrict (rows : List Row) :
    categoryKeys (rows.filter fun r => r.category.isSome) = categoryKeys rows := by
  unfold categoryKeys
  rw [filterMap_category_restrict]

theorem transaction_summary_restrict (rows : List Row) :
    transaction_summary (rows.filter fun r => r.category.isSome) =
      transaction_summary rows := by
  unfold transaction_summary
  dsimp only
  rw [categoryKeys_restrict]
  have hagg : ∀ c : String,
      aggRowFor (rows.filter fun r => r.category.isSome) c = aggRowFor rows c := by
    intro c
    unfold aggRowFor
    rw [groupRows_restrict]
  rw [funext hagg]

theorem filter_data_restrict (df : List Row) (s e : Option Date) :
    filter_data_by_date (df.filter fun r => r.category.isSome) s e =
      (filter_data_by_date df s e).filter fun r => r.category.isSome := by
  cases s with
  | none => rfl
  | some sv =>
    cases e with
    | none => rfl
    | some ev =>
      unfold filter_data_by_date
      exact filter_swap _ _ df

theorem filteredFrame_restrict (rows : List Row) (p : Period) (hc : Bool) (ref : Date) :
    filteredFrame (rows.filter fun r => r.category.isSome) p hc ref =
      (filteredFrame rows p hc ref).filter fun r => r.category.isSome := by
  unfold filteredFrame
  dsimp only
  have h1 : (if hc
        then ((rows.filter fun r => r.category.isSome).filter fun r => r.createdOn.isSome)
        else (rows.filter fun r => r.category.isSome)) =
      ((if hc then (rows.filter fun r => r.createdOn.isSome) else rows).filter
        fun r => r.category.isSome) := by
    cases hc
    · rfl
    · exact filter_swap _ _ rows
  rw [h1]
  by_cases hcond : ((get_date_range p ref).1.isSome && true = true)
  case pos =>
    by_cases hc2 : ((get_date_range p ref).1.isSome && hc) = true
    · simp only [if_pos hc2]
      exact filter_data_restrict _ _ _
    · simp only [if_neg hc2]
  case neg =>
    by_cases hc2 : ((get_date_range p ref).1.isSome && hc) = true
    · simp only [if_pos hc2]
      exact filter_data_restrict _ _ _
    · simp only [if_neg hc2]

theorem grand_of_frame {M : Type} [AddCommMonoid M] (E : List Row) (f : AggRow → M) :
    (if (E.filter fun r => r.category.isSome).isEmpty then (0 : M)
     else ((transaction_summary (E.filter fun r => r.category.isSome)).map f).sum) =
    (if E.isEmpty then (0 : M) else ((transaction_summary E).map f).sum) := by
  by_cases h1 : E.isEmpty = true
  · have hnil : E = [] := by rwa [List.isEmpty_iff] at h1
    rw [hnil]
    simp
  · rw [if_neg h1]
    by_cases h2 : (E.filter fun r => r.category.isSome).isEmpty = true
    · rw [if_pos h2]
      have hnil : E.filter (fun r => r.category.isSome) = [] := by
        rwa [List.isEmpty_iff] at h2
      rw [← transaction_summary_restrict E, hnil]
      rfl
    · rw [if_neg h2, transaction_summary_restrict]

/-- C10: rows whose category cell is NaN are silently excluded from the
aggregate table, and for every period token they contribute to neither grand
total: removing them from the input changes neither the table nor the grand
totals of the bundle. -/
theorem null_category_excluded (rows : List Row) (p : Period) (hc : Bool) (ref : Date) :
    transaction_summary rows =
      transaction_summary (rows.filter fun r => r.category.isSome) ∧
    (load_and_process_data rows p hc ref).grandTotal =
      (load_and_process_data (rows.filter fun r => r.category.isSome) p hc ref).grandTotal ∧
    (load_and_process_data rows p hc ref).grandCount =
      (load_and_process_data (rows.filter fun r => r.category.isSome) p hc ref).grandCount := by
  refine ⟨(transaction_summary_restrict rows).symm, ?_, ?_⟩ <;>
    · simp only [load_eq, filteredFrame_restrict]
      generalize filteredFrame rows p hc ref = E
      simp only [apply_ite ResultBundle.grandTotal, apply_ite ResultBundle.grandCount]
      exact (grand_of_frame _ _).symm

end Sales
